import Mathlib

/-!
Verification of the gitstatus core (`src/git.cc`) against its
natural-language specification.

The file shallowly embeds the functions of `git.cc`.  The functions are
thin wrappers around libgit2 calls; each libgit2 call outcome is modelled
as an explicit environment value (`Except Int α` for a fallible call that
returns an error code and fills an out-parameter, `Option` for a possibly
null pointer).  C strings are modelled as `List Char`.  A fatal error
(`throw Exception()` / a failing `VERIFY`) is modelled as `Except.error`.
-/

namespace Gitstatus

/-- Error code GIT_ENOTFOUND of libgit2. -/
def GIT_ENOTFOUND : Int := -3

/-- Error code GIT_EINVALIDSPEC of libgit2. -/
def GIT_EINVALIDSPEC : Int := -12

/-- Error klass GIT_ERROR_INVALID of libgit2 (git_error_t). -/
def GIT_ERROR_INVALID : Int := 3

/-! ## Repository state classifier (RepoState, git.cc lines 35-65)

git_repository_state returns an int from the git_repository_state_t
enumeration: NONE=0, MERGE=1, REVERT=2, REVERT_SEQUENCE=3, CHERRYPICK=4,
CHERRYPICK_SEQUENCE=5, BISECT=6, REBASE=7, REBASE_INTERACTIVE=8,
REBASE_MERGE=9, APPLY_MAILBOX=10, APPLY_MAILBOX_OR_REBASE=11.
The switch in RepoState maps each to its tag and everything else falls
through to "action". -/

/-- Embedding of RepoState: maps the result of git_repository_state to a tag. -/
def RepoState (state : Int) : String :=
  if state = 0 then ""
  else if state = 1 then "merge"
  else if state = 2 then "revert"
  else if state = 3 then "revert-seq"
  else if state = 4 then "cherry"
  else if state = 5 then "cherry-seq"
  else if state = 6 then "bisect"
  else if state = 7 then "rebase"
  else if state = 8 then "rebase-i"
  else if state = 9 then "rebase-m"
  else if state = 10 then "am"
  else if state = 11 then "am/rebase"
  else "action"

/-- The twelve tags of the enumerated states, in enumeration order. -/
def repoStateTags : List String :=
  ["", "merge", "revert", "revert-seq", "cherry", "cherry-seq", "bisect",
   "rebase", "rebase-i", "rebase-m", "am", "am/rebase"]

/-! ## References -/

/-- git_reference_t: the type tag of a reference. -/
inductive RefType where
  | invalid : RefType
  | direct : RefType
  | symbolic : RefType
  | all : RefType
deriving DecidableEq, Repr

/-- Model of a git_reference: the libgit2 accessors used by git.cc, as
fields.  `isBranch` is git_reference_is_branch, `shorthand` is
git_reference_shorthand, `symbolicTarget` is git_reference_symbolic_target
(null pointer modelled as `none`), `name` is git_reference_name. -/
structure Reference where
  name : List Char
  type : RefType
  isBranch : Bool
  shorthand : List Char
  symbolicTarget : Option (List Char)
deriving DecidableEq, Repr

/-- The canonical branch namespace "refs/heads/" (kHeadPrefix in git.cc). -/
def headsNS : List Char := "refs/heads/".toList

/-- Embedding of LocalBranchName (git.cc lines 167-189).  The C code
checks `len < sizeof(kHeadPrefix)` (i.e. strlen(target) < 12, since sizeof
counts the NUL) and then memcmp of the first 11 bytes, returning the
pointer advanced past the prefix.  `Except.error ()` models
`throw Exception()` on an invalid reference type. -/
def LocalBranchName (ref : Reference) : Except Unit (List Char) :=
  match ref.type with
  | .direct => .ok (if ref.isBranch then ref.shorthand else [])
  | .symbolic =>
    match ref.symbolicTarget with
    | none => .ok []
    | some target =>
      if target.length < headsNS.length + 1 then .ok []
      else if target.take headsNS.length = headsNS then
        .ok (target.drop headsNS.length)
      else .ok []
  | .invalid => .error ()
  | .all => .error ()

/-! ## Head resolution (Head, git.cc lines 133-152) -/

/-- Environment of one Head call: the outcomes of the libgit2 calls it
makes.  `lookupHEAD` is git_reference_lookup(repo, "HEAD") (ok with the
reference, or the nonzero error code); `resolve r` is
git_reference_resolve on reference r. -/
structure HeadEnv where
  lookupHEAD : Except Int Reference
  resolve : Reference → Except Int Reference

/-- Embedding of Head: `.ok none` models returning nullptr, `.ok (some r)`
models returning reference r, `.error ()` models `throw Exception()`. -/
def Head (env : HeadEnv) : Except Unit (Option Reference) :=
  match env.lookupHEAD with
  | .ok symbolic =>
    match env.resolve symbolic with
    | .ok direct => .ok (some direct)
    | .error _ => .ok (some symbolic)
  | .error e => if e = GIT_ENOTFOUND then .ok none else .error ()

/-! ## Upstream lookup (Upstream, git.cc lines 154-165) -/

/-- Outcome of git_branch_upstream: success with the upstream reference,
GIT_ENOTFOUND, or another failure whose git_error_last()->klass is
carried. -/
inductive UpstreamResult where
  | ok : Reference → UpstreamResult
  | notFound : UpstreamResult
  | err : Int → UpstreamResult
deriving DecidableEq, Repr

/-- Embedding of Upstream.  On a failure other than GIT_ENOTFOUND, the
code runs `VERIFY(git_error_last()->klass == GIT_ERROR_INVALID)` and then
returns nullptr: a failing VERIFY throws, so klass GIT_ERROR_INVALID
yields `.ok none` and any other klass is fatal. -/
def Upstream (res : UpstreamResult) : Except Unit (Option Reference) :=
  match res with
  | .ok u => .ok (some u)
  | .notFound => .ok none
  | .err klass => if klass = GIT_ERROR_INVALID then .ok none else .error ()

/-! ## Remote of a branch (GetRemote, git.cc lines 191-200) -/

/-- Environment of one GetRemote call: `branchName` is the outcome of
git_branch_name(ref) (fails when ref is not a branch), `remoteNameBuf`
the outcome of git_branch_remote_name(repo, git_reference_name(ref)). -/
structure GetRemoteEnv where
  branchName : Except Int (List Char)
  remoteNameBuf : Except Int (List Char)

/-- Embedding of GetRemote.  `strstr(branch, remote.ptr) == branch` holds
iff remote is a prefix of branch, embedded as a `take`-equation;
`branch[remote.size] == '/'` reads the char right after that prefix (the
NUL terminator, i.e. `none`, when branch is exactly remote).  A failing
VERIFY is `.error ()`; the empty Remote `return {}` is `.ok none`. -/
def GetRemote (env : GetRemoteEnv) : Except Unit (Option (List Char × List Char)) :=
  match env.branchName with
  | .error _ => .ok none
  | .ok branch =>
    match env.remoteNameBuf with
    | .error _ => .ok none
    | .ok remote =>
      if branch.take remote.length = remote then
        if branch[remote.length]? = some '/' then
          .ok (some (remote, branch.drop (remote.length + 1)))
        else .error ()
      else .error ()

/-! ## Remote URL (RemoteUrl, git.cc lines 111-131) -/

/-- Model of a git_remote as used by RemoteUrl: its configured fetch URL,
`none` when git_remote_url returns null. -/
structure RemoteHandle where
  url : Option (List Char)
deriving DecidableEq, Repr

/-- Environment of one RemoteUrl call: `branchRemoteName` is the outcome
of git_branch_remote_name(repo, git_reference_name(ref)); `remoteLookup n`
is the outcome of git_remote_lookup(repo, n). -/
structure RemoteUrlEnv where
  branchRemoteName : Except Int (List Char)
  remoteLookup : List Char → Except Int RemoteHandle

/-- Embedding of RemoteUrl.  Any nonzero result of git_branch_remote_name
returns "" at once; git_remote_lookup maps GIT_ENOTFOUND and
GIT_EINVALIDSPEC to "", any other failure to a thrown Exception; a null
git_remote_url is "" via the `?:` operator. -/
def RemoteUrl (env : RemoteUrlEnv) : Except Unit (List Char) :=
  match env.branchRemoteName with
  | .error _ => .ok []
  | .ok rname =>
    match env.remoteLookup rname with
    | .ok remote => .ok (remote.url.getD [])
    | .error e =>
      if e = GIT_ENOTFOUND ∨ e = GIT_EINVALIDSPEC then .ok [] else .error ()

/-! ## Commit graph counter (CountRange, git.cc lines 67-86)

CountRange delegates the traversal itself to the libgit2 revwalk.  Two
models are given.  `CountRangeWalk` embeds the git.cc wrapper over the
outcomes of the revwalk calls; `CountRange` embeds the traversal that the
revwalk performs, modelled from the spec. -/

/-- Modelled from the spec: the commit graph queried through the libgit2
revwalk (absent from src/).  Commits are OIDs (naturals); `parents` is
commit parent enumeration keyed by OID, edges pointing child to parent. -/
structure CommitGraph where
  parents : Nat → List Nat

/-- One expansion step of the reachability traversal: add the parents of
every commit marked so far, deduplicating visited OIDs. -/
def stepR (g : CommitGraph) (s : List Nat) : List Nat :=
  (s.flatMap g.parents ++ s).dedup

/-- The OIDs marked after `k` expansion steps of the traversal seeded at
`src`. -/
def reachN (g : CommitGraph) (src : Nat) : Nat → List Nat
  | 0 => [src]
  | k + 1 => stepR g (reachN g src k)

/-- A commit `c` is reachable from `src` by following parent edges
(reflexively and transitively). -/
def reachable (g : CommitGraph) (src c : Nat) : Prop :=
  Relation.ReflTransGen (fun a b => b ∈ g.parents a) src c

/-- Modelled from the spec: CountRange over a graph whose OIDs are below
`n`.  Every OID reachable from the exclude endpoint is pre-visited; the
traversal seeded at the include endpoint counts each distinct visited OID
not marked exclude-reachable.  `n` expansion steps saturate a graph with
OIDs below `n`. -/
def CountRange (g : CommitGraph) (n excl incl : Nat) : Nat :=
  ((reachN g incl n).dedup.filter
    (fun c => decide (¬ c ∈ reachN g excl n))).length

/-! ## Revwalk wrapper (CountRange error path, git.cc lines 67-86) -/

/-- One result of git_revwalk_next: a commit OID, GIT_ITEROVER, or a
failure. -/
inductive WalkStep where
  | yield : Nat → WalkStep
  | iterOver : WalkStep
  | fail : WalkStep
deriving DecidableEq, Repr

/-- Environment of one CountRange call: outcomes of git_revwalk_new and
git_revwalk_push_range, the successive results of git_revwalk_next, and
the diagnostic GitError() message available at a failure. -/
structure RevwalkEnv where
  newOk : Bool
  pushOk : Bool
  steps : List WalkStep
  errMsg : String

/-- Modelled from the spec (the logging macros of check.h and print.h are
absent from src/): a fatal outcome is logged with the failing operation
and its details — for an ill-formed range, the offending range expression
together with the diagnostic message — then raised. -/
structure LogEntry where
  op : String
  details : List String
deriving DecidableEq, Repr

/-- The loop of CountRange: each git_revwalk_next result either bumps the
count, ends the walk (GIT_ITEROVER), or logs the range and the diagnostic
and throws. -/
def walkLoop (rng msg : String) : List WalkStep → Nat → Except LogEntry Nat
  | [], res => .ok res
  | .yield _ :: rest, res => walkLoop rng msg rest (res + 1)
  | .iterOver :: _, res => .ok res
  | .fail :: _, _ => .error ⟨"git_revwalk_next", [rng, msg]⟩

/-- Embedding of the CountRange wrapper of git.cc: VERIFY on
git_revwalk_new, VERIFY on git_revwalk_push_range (this is where an
ill-formed range expression fails), then the counting loop. -/
def CountRangeWalk (env : RevwalkEnv) (rng : String) : Except LogEntry Nat :=
  if !env.newOk then .error ⟨"git_revwalk_new", [env.errMsg]⟩
  else if !env.pushOk then .error ⟨"git_revwalk_push_range", [rng, env.errMsg]⟩
  else walkLoop rng env.errMsg env.steps 0

/-! ## Theorems -/

/-- C2: the repository state classifier is total: each of the twelve
enumerated operation states is mapped to its own documented tag (the
twelve tags are pairwise distinct, and in particular interactive rebase
gets a tag distinct from plain rebase), any state value outside the
enumeration is mapped to the generic fallback tag "action", and the
classifier is a total function with no failure path. -/
theorem repoState_total (s : Int) :
    (RepoState 0 = "" ∧ RepoState 1 = "merge" ∧ RepoState 2 = "revert" ∧
     RepoState 3 = "revert-seq" ∧ RepoState 4 = "cherry" ∧
     RepoState 5 = "cherry-seq" ∧ RepoState 6 = "bisect" ∧
     RepoState 7 = "rebase" ∧ RepoState 8 = "rebase-i" ∧
     RepoState 9 = "rebase-m" ∧ RepoState 10 = "am" ∧
     RepoState 11 = "am/rebase") ∧
    repoStateTags.Nodup ∧
    RepoState 8 ≠ RepoState 7 ∧
    ((s < 0 ∨ 11 < s) → RepoState s = "action") := by
  refine ⟨by decide, by decide, by decide, fun hs => ?_⟩
  rcases hs with hs | hs <;>
    (unfold RepoState; repeat rw [if_neg (by omega)])

/-- Witness for repoState_total: the out-of-enumeration value 12 maps to
the fallback tag. -/
theorem repoState_total_witness : RepoState 12 = "action" :=
  (repoState_total 12).2.2.2 (Or.inr (by decide))

/-- C3: Head returns None when the lookup of the reference named HEAD
reports GIT_ENOTFOUND; when the looked-up reference cannot be resolved to
a direct reference (unborn branch), it returns the unresolved symbolic
reference itself; any other lookup error is fatal. -/
theorem head_resolution (env : HeadEnv) :
    (env.lookupHEAD = .error GIT_ENOTFOUND → Head env = .ok none) ∧
    (∀ r ec, env.lookupHEAD = .ok r → env.resolve r = .error ec →
      Head env = .ok (some r)) ∧
    (∀ e, env.lookupHEAD = .error e → e ≠ GIT_ENOTFOUND →
      Head env = .error ()) := by
  refine ⟨fun h => ?_, fun r ec h1 h2 => ?_, fun e h1 h2 => ?_⟩
  · simp [Head, h]
  · simp [Head, h1, h2]
  · simp [Head, h1, h2]

/-- A symbolic HEAD whose target cannot be resolved (unborn branch). -/
def refUnborn : Reference :=
  ⟨"HEAD".toList, .symbolic, false, "HEAD".toList, some "refs/heads/main".toList⟩

/-- Environment in which HEAD exists but resolution fails. -/
def headEnvUnborn : HeadEnv := ⟨.ok refUnborn, fun _ => .error (-1)⟩

/-- Witness for head_resolution: on an unborn branch, Head returns the
unresolved symbolic reference. -/
theorem head_resolution_witness : Head headEnvUnborn = .ok (some refUnborn) :=
  (head_resolution headEnvUnborn).2.1 refUnborn (-1) rfl rfl

/-- C5: Upstream returns None when no upstream is configured
(GIT_ENOTFOUND) and when the lookup fails with error klass
GIT_ERROR_INVALID; any other failure klass is fatal. -/
theorem upstream_soft_absence (res : UpstreamResult) :
    (res = .notFound → Upstream res = .ok none) ∧
    (res = .err GIT_ERROR_INVALID → Upstream res = .ok none) ∧
    (∀ k, res = .err k → k ≠ GIT_ERROR_INVALID → Upstream res = .error ()) := by
  refine ⟨fun h => ?_, fun h => ?_, fun k h1 h2 => ?_⟩
  · simp [Upstream, h]
  · simp [Upstream, h]
  · simp [Upstream, h1, h2]

/-- Witness for upstream_soft_absence: no configured upstream yields
None. -/
theorem upstream_soft_absence_witness : Upstream .notFound = .ok none :=
  (upstream_soft_absence .notFound).1 rfl

/-- C9: a symbolic reference whose symbolic target is a null pointer
yields the empty branch name rather than a failure. -/
theorem localBranchName_null_target (ref : Reference)
    (h1 : ref.type = .symbolic) (h2 : ref.symbolicTarget = none) :
    LocalBranchName ref = .ok [] := by
  simp [LocalBranchName, h1, h2]

/-- A symbolic reference with a null symbolic target. -/
def refNullTarget : Reference := ⟨"HEAD".toList, .symbolic, false, [], none⟩

/-- Witness for localBranchName_null_target. -/
theorem localBranchName_null_target_witness :
    LocalBranchName refNullTarget = .ok [] :=
  localBranchName_null_target refNullTarget rfl rfl

/-- Helper: reading index `n` of a list successfully splits the drop at
`n` into that element and the drop at `n + 1`. -/
theorem drop_eq_cons_getElem {α : Type} (l : List α) (n : Nat) (c : α)
    (h : l[n]? = some c) : l.drop n = c :: l.drop (n + 1) := by
  induction l generalizing n with
  | nil => simp at h
  | cons a t ih =>
    cases n with
    | zero => simp_all
    | succ m =>
      simp only [List.getElem?_cons_succ] at h
      simpa using ih m h

/-- C4: LocalBranchName returns, for a direct reference, its short name
when it is classified as a branch and the empty string otherwise; for a
symbolic reference, the suffix of the target after the prefix
"refs/heads/" when the target begins with that prefix and the empty
string otherwise; for the other reference kinds it is fatal. -/
theorem localBranchName_cases (ref : Reference) :
    (ref.type = .direct →
      LocalBranchName ref = .ok (if ref.isBranch then ref.shorthand else [])) ∧
    (∀ t, ref.type = .symbolic → ref.symbolicTarget = some t →
      ((∃ s, t = headsNS ++ s) →
        LocalBranchName ref = .ok (t.drop headsNS.length)) ∧
      ((¬ ∃ s, t = headsNS ++ s) → LocalBranchName ref = .ok [])) ∧
    ((ref.type = .invalid ∨ ref.type = .all) →
      LocalBranchName ref = .error ()) := by
  refine ⟨fun h => by simp [LocalBranchName, h], fun t h1 h2 => ⟨?_, ?_⟩,
    fun h => by rcases h with h | h <;> simp [LocalBranchName, h]⟩
  · rintro ⟨s, rfl⟩
    simp only [LocalBranchName, h1, h2]
    by_cases hlen : (headsNS ++ s).length < headsNS.length + 1
    · rw [if_pos hlen]
      have hs : s = [] := by
        rw [List.length_append] at hlen
        exact List.length_eq_zero.mp (by omega)
      subst hs
      simp
    · rw [if_neg hlen, if_pos (by simp), List.drop_left]
  · intro hn
    simp only [LocalBranchName, h1, h2]
    by_cases hlen : t.length < headsNS.length + 1
    · rw [if_pos hlen]
    · rw [if_neg hlen, if_neg]
      intro hpre
      refine hn ⟨t.drop headsNS.length, ?_⟩
      conv_lhs => rw [← List.take_append_drop headsNS.length t]
      rw [hpre]

/-- A symbolic reference targeting refs/heads/main. -/
def refMainSym : Reference :=
  ⟨"HEAD".toList, .symbolic, false, [], some "refs/heads/main".toList⟩

/-- Witness for localBranchName_cases: the symbolic reference targeting
refs/heads/main yields the branch name main. -/
theorem localBranchName_cases_witness :
    LocalBranchName refMainSym = .ok "main".toList := by
  have h := ((localBranchName_cases refMainSym).2.1 "refs/heads/main".toList
    rfl rfl).1 ⟨"main".toList, by decide⟩
  rw [h]
  rfl

/-- C6: GetRemote returns empty when the reference is not classified as a
branch (git_branch_name fails) or when no remote is configured for it
(git_branch_remote_name fails); on success the returned remote name and
remote-relative branch name concatenated as remote/relative reconstruct
the full tracked upstream name exactly; when that name does not begin
with the remote name followed by a slash, GetRemote is fatal. -/
theorem getRemote_reconstruction (env : GetRemoteEnv) :
    (∀ e, env.branchName = .error e → GetRemote env = .ok none) ∧
    (∀ b e, env.branchName = .ok b → env.remoteNameBuf = .error e →
      GetRemote env = .ok none) ∧
    (∀ b r rn rel, env.branchName = .ok b → env.remoteNameBuf = .ok r →
      GetRemote env = .ok (some (rn, rel)) →
      rn = r ∧ b = rn ++ '/' :: rel) ∧
    (∀ b r, env.branchName = .ok b → env.remoteNameBuf = .ok r →
      (¬ ∃ s, b = r ++ '/' :: s) → GetRemote env = .error ()) := by
  refine ⟨fun e h => by simp [GetRemote, h],
    fun b e h1 h2 => by simp [GetRemote, h1, h2],
    fun b r rn rel h1 h2 hres => ?_, fun b r h1 h2 hn => ?_⟩
  · simp only [GetRemote, h1, h2] at hres
    by_cases ht : b.take r.length = r
    · rw [if_pos ht] at hres
      by_cases hg : b[r.length]? = some '/'
      · rw [if_pos hg] at hres
        simp only [Except.ok.injEq, Option.some.injEq, Prod.mk.injEq] at hres
        obtain ⟨hrn, hrel⟩ := hres
        subst hrn
        subst hrel
        refine ⟨rfl, ?_⟩
        conv_lhs => rw [← List.take_append_drop r.length b]
        rw [ht, drop_eq_cons_getElem b r.length '/' hg]
      · rw [if_neg hg] at hres
        exact absurd hres (by simp)
    · rw [if_neg ht] at hres
      exact absurd hres (by simp)
  · simp only [GetRemote, h1, h2]
    by_cases ht : b.take r.length = r
    · rw [if_pos ht]
      by_cases hg : b[r.length]? = some '/'
      · exfalso
        refine hn ⟨b.drop (r.length + 1), ?_⟩
        conv_lhs => rw [← List.take_append_drop r.length b]
        rw [ht, drop_eq_cons_getElem b r.length '/' hg]
      · rw [if_neg hg]
    · rw [if_neg ht]

/-- Environment of a branch tracking origin/master. -/
def getRemoteEnvW : GetRemoteEnv :=
  ⟨.ok "origin/master".toList, .ok "origin".toList⟩

/-- Witness for getRemote_reconstruction: with full tracked name
origin/master and remote origin, the remote-relative name master
reconstructs the full name. -/
theorem getRemote_reconstruction_witness :
    "origin".toList = "origin".toList ∧
    "origin/master".toList = "origin".toList ++ '/' :: "master".toList :=
  (getRemote_reconstruction getRemoteEnvW).2.2.1 "origin/master".toList
    "origin".toList "origin".toList "master".toList rfl rfl rfl

/-- Helper: RemoteUrl reaches its fatal path only through a
git_remote_lookup failure other than GIT_ENOTFOUND and
GIT_EINVALIDSPEC. -/
theorem remoteUrl_error_inv (env : RemoteUrlEnv)
    (herr : RemoteUrl env = .error ()) :
    ∃ r e, env.branchRemoteName = .ok r ∧ env.remoteLookup r = .error e ∧
      e ≠ GIT_ENOTFOUND ∧ e ≠ GIT_EINVALIDSPEC := by
  unfold RemoteUrl at herr
  split at herr
  · exact absurd herr (by simp)
  · rename_i r heq
    split at herr
    · exact absurd herr (by simp)
    · rename_i e hl
      by_cases he : e = GIT_ENOTFOUND ∨ e = GIT_EINVALIDSPEC
      · rw [if_pos he] at herr
        exact absurd herr (by simp)
      · push_neg at he
        exact ⟨r, e, heq, hl, he.1, he.2⟩

/-- C7: RemoteUrl returns the empty string when git_branch_remote_name
reports no remote name, when the remote is not found (GIT_ENOTFOUND),
when the name is not a valid remote specifier (GIT_EINVALIDSPEC), and
when the remote has no URL set; otherwise it returns the remote's
configured fetch URL; it is fatal only on a remote-lookup failure outside
those cases. -/
theorem remoteUrl_outcomes (env : RemoteUrlEnv) :
    (∀ e, env.branchRemoteName = .error e → RemoteUrl env = .ok []) ∧
    (∀ r, env.branchRemoteName = .ok r →
      env.remoteLookup r = .error GIT_ENOTFOUND → RemoteUrl env = .ok []) ∧
    (∀ r, env.branchRemoteName = .ok r →
      env.remoteLookup r = .error GIT_EINVALIDSPEC → RemoteUrl env = .ok []) ∧
    (∀ r rem, env.branchRemoteName = .ok r → env.remoteLookup r = .ok rem →
      rem.url = none → RemoteUrl env = .ok []) ∧
    (∀ r rem u, env.branchRemoteName = .ok r → env.remoteLookup r = .ok rem →
      rem.url = some u → RemoteUrl env = .ok u) ∧
    (RemoteUrl env = .error () →
      ∃ r e, env.branchRemoteName = .ok r ∧ env.remoteLookup r = .error e ∧
        e ≠ GIT_ENOTFOUND ∧ e ≠ GIT_EINVALIDSPEC) := by
  refine ⟨fun e h => by simp [RemoteUrl, h],
    fun r h1 h2 => by simp [RemoteUrl, h1, h2],
    fun r h1 h2 => by simp [RemoteUrl, h1, h2],
    fun r rem h1 h2 h3 => by simp [RemoteUrl, h1, h2, h3],
    fun r rem u h1 h2 h3 => by simp [RemoteUrl, h1, h2, h3],
    remoteUrl_error_inv env⟩

/-- Environment of a branch whose remote origin has a fetch URL. -/
def remoteUrlEnvW : RemoteUrlEnv :=
  ⟨.ok "origin".toList,
   fun _ => .ok ⟨some "https://example.com/repo.git".toList⟩⟩

/-- Witness for remoteUrl_outcomes: a configured remote with a URL yields
that URL. -/
theorem remoteUrl_outcomes_witness :
    RemoteUrl remoteUrlEnvW = .ok "https://example.com/repo.git".toList :=
  (remoteUrl_outcomes remoteUrlEnvW).2.2.2.2.1 "origin".toList
    ⟨some "https://example.com/repo.git".toList⟩
    "https://example.com/repo.git".toList rfl rfl rfl

/-- C10: RemoteUrl returns the empty string whenever the
branch-remote-name lookup fails, whatever the error code, without ever
raising at that step; the fatal path can arise only from the subsequent
remote lookup. -/
theorem remoteUrl_branch_name_soft (env : RemoteUrlEnv) :
    (∀ e, env.branchRemoteName = .error e → RemoteUrl env = .ok []) ∧
    (RemoteUrl env = .error () →
      ∃ r e, env.branchRemoteName = .ok r ∧ env.remoteLookup r = .error e) := by
  refine ⟨fun e h => by simp [RemoteUrl, h], fun herr => ?_⟩
  obtain ⟨r, e, h1, h2, -, -⟩ := remoteUrl_error_inv env herr
  exact ⟨r, e, h1, h2⟩

/-- Environment in which the branch-remote-name lookup fails with an
arbitrary error code. -/
def remoteUrlEnvFail : RemoteUrlEnv :=
  ⟨.error (-7), fun _ => .error (-1)⟩

/-- Witness for remoteUrl_branch_name_soft: a failing branch-remote-name
lookup yields the empty string. -/
theorem remoteUrl_branch_name_soft_witness :
    RemoteUrl remoteUrlEnvFail = .ok [] :=
  (remoteUrl_branch_name_soft remoteUrlEnvFail).1 (-7) rfl

/-! ### Reachability traversal theory for CountRange -/

/-- Membership in one expansion step: a parent of a marked commit, or an
already marked commit. -/
theorem mem_stepR {g : CommitGraph} {s : List Nat} {c : Nat} :
    c ∈ stepR g s ↔ (∃ a ∈ s, c ∈ g.parents a) ∨ c ∈ s := by
  simp [stepR, List.mem_dedup, List.mem_append, List.mem_flatMap]

/-- Expansion never unmarks a commit. -/
theorem subset_stepR {g : CommitGraph} {s : List Nat} {c : Nat} (hc : c ∈ s) :
    c ∈ stepR g s :=
  mem_stepR.mpr (Or.inr hc)

/-- The marked set grows with the step count. -/
theorem reachN_mono_succ {g : CommitGraph} {src k c : Nat}
    (hc : c ∈ reachN g src k) : c ∈ reachN g src (k + 1) :=
  subset_stepR hc

/-- The seed stays marked. -/
theorem src_mem_reachN (g : CommitGraph) (src : Nat) :
    ∀ k, src ∈ reachN g src k := by
  intro k
  induction k with
  | zero => simp [reachN]
  | succ m ih => exact reachN_mono_succ ih

/-- Soundness: every marked commit is reachable from the seed. -/
theorem reachN_sound {g : CommitGraph} {src k c : Nat}
    (hc : c ∈ reachN g src k) : reachable g src c := by
  induction k generalizing c with
  | zero =>
    simp only [reachN, List.mem_singleton] at hc
    subst hc
    exact Relation.ReflTransGen.refl
  | succ m ih =>
    rcases mem_stepR.mp hc with ⟨a, ha, hpar⟩ | hmem
    · exact (ih ha).tail hpar
    · exact ih hmem

/-- The traversal is saturated after `k` steps: the next step marks
nothing new. -/
def Closed (g : CommitGraph) (src k : Nat) : Prop :=
  ∀ c ∈ reachN g src (k + 1), c ∈ reachN g src k

/-- Completeness: once saturated, every commit reachable from the seed is
marked. -/
theorem reachN_complete {g : CommitGraph} {src k : Nat}
    (hcl : Closed g src k) : ∀ c, reachable g src c → c ∈ reachN g src k := by
  intro c h
  induction h with
  | refl => exact src_mem_reachN g src k
  | tail _ hbc ih =>
    exact hcl _ (mem_stepR.mpr (Or.inl ⟨_, ih, hbc⟩))

/-- In a graph whose OIDs are below `n`, every marked commit is below
`n`. -/
theorem reachN_bounded {g : CommitGraph} {src n : Nat} (hsrc : src < n)
    (hb : ∀ a, a < n → ∀ b ∈ g.parents a, b < n) :
    ∀ k, ∀ c ∈ reachN g src k, c < n := by
  intro k
  induction k with
  | zero => simpa [reachN] using hsrc
  | succ m ih =>
    intro c hc
    rcases mem_stepR.mp hc with ⟨a, ha, hpar⟩ | hmem
    · exact hb a (ih a ha) c hpar
    · exact ih c hmem

/-- The marked list holds each OID once. -/
theorem reachN_nodup {g : CommitGraph} {src k : Nat} :
    (reachN g src k).Nodup := by
  cases k with
  | zero => simp [reachN]
  | succ m => exact List.nodup_dedup _

/-- Saturation is preserved by a further step. -/
theorem closed_succ {g : CommitGraph} {src k : Nat} (h : Closed g src k) :
    Closed g src (k + 1) := by
  intro c hc
  have hc' : c ∈ stepR g (reachN g src (k + 1)) := hc
  rw [mem_stepR] at hc'
  show c ∈ stepR g (reachN g src k)
  rw [mem_stepR]
  rcases hc' with ⟨a, ha, hpar⟩ | hmem
  · exact Or.inl ⟨a, h a ha, hpar⟩
  · exact Or.inr (h c hmem)

/-- Saturation at a step count is saturation at any larger one. -/
theorem closed_mono {g : CommitGraph} {src k m : Nat} (hkm : k ≤ m)
    (h : Closed g src k) : Closed g src m := by
  induction hkm with
  | refl => exact h
  | step _ ih => exact closed_succ ih

/-- Before saturation, each step strictly grows the marked list. -/
theorem length_lt_of_not_closed {g : CommitGraph} {src k : Nat}
    (h : ¬ Closed g src k) :
    (reachN g src k).length < (reachN g src (k + 1)).length := by
  unfold Closed at h
  push_neg at h
  obtain ⟨x, hx1, hx2⟩ := h
  have hnd : (x :: reachN g src k).Nodup :=
    List.nodup_cons.mpr ⟨hx2, reachN_nodup⟩
  have hsub : (x :: reachN g src k) ⊆ reachN g src (k + 1) := by
    intro c hc
    rcases List.mem_cons.mp hc with rfl | hc
    · exact hx1
    · exact reachN_mono_succ hc
  have := (hnd.subperm hsub).length_le
  simpa using this

/-- The marked list never exceeds the OID bound. -/
theorem reachN_length_le {g : CommitGraph} {src n : Nat} (hsrc : src < n)
    (hb : ∀ a, a < n → ∀ b ∈ g.parents a, b < n) (k : Nat) :
    (reachN g src k).length ≤ n := by
  have hsub : reachN g src k ⊆ List.range n := fun c hc =>
    List.mem_range.mpr (reachN_bounded hsrc hb k c hc)
  have := (reachN_nodup.subperm hsub).length_le
  simpa using this

/-- In a graph whose OIDs are below `n`, `n` expansion steps saturate the
traversal. -/
theorem closed_at_bound {g : CommitGraph} {src n : Nat} (hsrc : src < n)
    (hb : ∀ a, a < n → ∀ b ∈ g.parents a, b < n) : Closed g src n := by
  by_contra hn
  have hall : ∀ k, k ≤ n → ¬ Closed g src k := fun k hk hcl =>
    hn (closed_mono hk hcl)
  have hlen : ∀ k, k ≤ n + 1 → k + 1 ≤ (reachN g src k).length := by
    intro k
    induction k with
    | zero => intro _; simp [reachN]
    | succ m ih =>
      intro hm
      have h1 := length_lt_of_not_closed (hall m (by omega))
      have h2 := ih (by omega)
      omega
  have h1 := hlen (n + 1) (le_refl _)
  have h2 := reachN_length_le hsrc hb (n + 1)
  omega

/-- After `n` steps the marked set is exactly the reachable set. -/
theorem mem_reachN_iff_reachable {g : CommitGraph} {src n c : Nat}
    (hsrc : src < n) (hb : ∀ a, a < n → ∀ b ∈ g.parents a, b < n) :
    c ∈ reachN g src n ↔ reachable g src c :=
  ⟨reachN_sound, fun h => reachN_complete (closed_at_bound hsrc hb) c h⟩

/-- C1: for every commit graph with OIDs below `n` and every well-formed
range exclude..include, CountRange returns the number of distinct commits
reachable from the include endpoint (itself included, following parent
edges) that are not reachable from the exclude endpoint, each commit
counted exactly once however many merge paths reach it: the count is the
cardinality of the set difference of the two reachable sets. -/
theorem countRange_correct (g : CommitGraph) (n excl incl : Nat)
    (hincl : incl < n) (hexcl : excl < n)
    (hb : ∀ a, a < n → ∀ b ∈ g.parents a, b < n) :
    CountRange g n excl incl =
      Set.ncard {c | reachable g incl c ∧ ¬ reachable g excl c} := by
  classical
  have hmem : ∀ c, c ∈ (reachN g incl n).dedup.filter
      (fun c => decide (¬ c ∈ reachN g excl n)) ↔
      (reachable g incl c ∧ ¬ reachable g excl c) := by
    intro c
    rw [List.mem_filter]
    simp only [List.mem_dedup, decide_eq_true_eq]
    rw [mem_reachN_iff_reachable hincl hb, mem_reachN_iff_reachable hexcl hb]
  have hnd : ((reachN g incl n).dedup.filter
      (fun c => decide (¬ c ∈ reachN g excl n))).Nodup :=
    (List.nodup_dedup _).filter _
  have hset : {c | reachable g incl c ∧ ¬ reachable g excl c} =
      ↑((reachN g incl n).dedup.filter
        (fun c => decide (¬ c ∈ reachN g excl n))).toFinset := by
    ext c
    simp only [Set.mem_setOf_eq, Finset.coe_sort_coe, Finset.mem_coe,
      List.mem_toFinset]
    exact (hmem c).symm
  rw [CountRange, hset, Set.ncard_coe_Finset, List.toFinset_card_of_nodup hnd]

/-- A history with a merge: 0 is the root, 1 its child, 2 and 3 diverge
from 1, and 4 merges 2 and 3. -/
def graphW : CommitGraph :=
  ⟨fun a => if a = 1 then [0] else if a = 2 then [1] else if a = 3 then [1]
    else if a = 4 then [2, 3] else []⟩

/-- Witness for countRange_correct on the merge history, with the range
1..4. -/
theorem countRange_correct_witness :
    CountRange graphW 5 1 4 =
      Set.ncard {c | reachable graphW 4 c ∧ ¬ reachable graphW 1 c} :=
  countRange_correct graphW 5 1 4 (by decide) (by decide) (by decide)

/-- C8: when the endpoints of the range expression cannot be resolved to
commits, git_revwalk_push_range fails and CountRange fails fatally,
logging the offending range expression together with the diagnostic
message in the raised error. -/
theorem countRange_ill_formed_range (env : RevwalkEnv) (rng : String)
    (hnew : env.newOk = true) (hpush : env.pushOk = false) :
    CountRangeWalk env rng =
      .error ⟨"git_revwalk_push_range", [rng, env.errMsg]⟩ := by
  simp [CountRangeWalk, hnew, hpush]

/-- Environment in which the range endpoints do not resolve. -/
def revwalkEnvBad : RevwalkEnv := ⟨true, false, [], "revspec not found"⟩

/-- Witness for countRange_ill_formed_range. -/
theorem countRange_ill_formed_range_witness :
    CountRangeWalk revwalkEnvBad "master..topic" =
      .error ⟨"git_revwalk_push_range", ["master..topic", "revspec not found"]⟩ :=
  countRange_ill_formed_range revwalkEnvBad "master..topic" rfl rfl

end Gitstatus
